import Mathlib

/-!
Verification of the cascading binary-vector database (`BinaryVectorDB.py`):
a shallow embedding of its data model (faiss `IndexBinaryIDMap2` + RocksDB
document store), the ingestion / removal operations, the constructor's
config lifecycle, and the three-phase search pipeline, together with
theorems settling the specification claims.

Modelling conventions:
* Python dynamic values (doc ids, payloads, extractor results) are `PyVal`.
* The binary index is a list of `(doc_id, packed ubinary bytes)` pairs in
  insertion order; the RocksDB store is an association list with unique keys.
* Machine floats are modelled as exact rationals.  Phase III cosine scores
  `dot / ‖v‖₂` involve a real square root, so a score is carried as the
  exact pair `(dot, ‖v‖₂²)`; comparisons between such scores (the Python
  `<` on floats and the sort key) are performed through `Cos.key`, a
  rational encoding that is order-isomorphic to the real value
  `dot / √normSq` (proved in `Cos.key_le_key_iff` below).
* Exceptions are modelled by returning the state reached so far together
  with an `Except String Unit` outcome, so "raises before any mutation"
  is expressible.
-/

namespace RagDB

/-- A dynamic Python value: an `int`, a `str`, or some other opaque object. -/
inductive PyVal where
  | int (i : Int)
  | str (s : String)
  | obj (tag : Nat)
deriving DecidableEq, Repr

/-- `isinstance(v, int)`. -/
def PyVal.isInt : PyVal → Bool
  | .int _ => true
  | _ => false

/-- A record of the document store: `{'doc': doc, 'emb_int8': emb_int8}`. -/
structure DocRecord where
  doc : PyVal
  emb_int8 : List Int
deriving DecidableEq, Repr

/-- The in-memory state of a `BinaryVectorDB`: the faiss binary index
(id/vector pairs in insertion order), the RocksDB document store, the last
saved on-disk index snapshot (`index.bin`), and the configured model. -/
structure DBState where
  index : List (Int × List Nat)
  doc_db : List (Int × DocRecord)
  disk_index : List (Int × List Nat)
  model : String
deriving DecidableEq, Repr

/-! ### Document store (Rdict) operations -/

/-- `doc_id in self.doc_db`. -/
def dbContains (db : List (Int × DocRecord)) (k : Int) : Bool :=
  db.any (fun p => p.1 == k)

/-- `self.doc_db[doc_id]` as a point lookup. -/
def dbGet (db : List (Int × DocRecord)) (k : Int) : Option DocRecord :=
  (db.find? (fun p => p.1 == k)).map (fun p => p.2)

/-- `self.doc_db[doc_id] = v`: key-value assignment (replaces any existing
entry for the key). -/
def dbPut (db : List (Int × DocRecord)) (k : Int) (v : DocRecord) :
    List (Int × DocRecord) :=
  db.filter (fun p => p.1 != k) ++ [(k, v)]

/-- `del self.doc_db[doc_id]`. -/
def dbDel (db : List (Int × DocRecord)) (k : Int) : List (Int × DocRecord) :=
  db.filter (fun p => p.1 != k)

/-- Insert a list of key/record pairs one by one (the store-insert loop of
`_add_batch`). -/
def putMany (db : List (Int × DocRecord)) (l : List (Int × DocRecord)) :
    List (Int × DocRecord) :=
  l.foldl (fun d p => dbPut d p.1 p.2) db

/-! ### Binary index (faiss `IndexBinaryIDMap2`) operations -/

/-- `self.index.ntotal`. -/
def ntotal (idx : List (Int × List Nat)) : Nat := idx.length

/-- `self.index.add_with_ids(emb_ubinary, doc_ids)`: appends the vectors,
associating external ids. -/
def add_with_ids (idx : List (Int × List Nat)) (embs : List (List Nat))
    (ids : List Int) : List (Int × List Nat) :=
  idx ++ ids.zip embs

/-- `self.index.remove_ids(ids)`: removes every vector whose id is listed. -/
def remove_ids (idx : List (Int × List Nat)) (ids : List Int) :
    List (Int × List Nat) :=
  idx.filter (fun p => !(ids.contains p.1))

/-- `self.index.reconstruct(doc_id)`: the stored vector for an id (the
id-map points at the most recently added vector for the id). -/
def reconstruct (idx : List (Int × List Nat)) (i : Int) : Option (List Nat) :=
  (idx.reverse.find? (fun p => p.1 == i)).map (fun p => p.2)

/-- External ids present in the index. -/
def idsOf (idx : List (Int × List Nat)) : List Int := idx.map (fun p => p.1)

/-- Keys present in the document store. -/
def keysOf (db : List (Int × DocRecord)) : List Int := db.map (fun p => p.1)

/-! ### Ingestion -/

/-- The external Cohere embedder: for a model and a text it yields the
document-mode `(ubinary, int8)` embeddings and the query-mode
`(float, ubinary)` embeddings. -/
structure Embedder where
  embedDoc : String → String → List Nat × List Int
  embedQuery : String → String → List ℚ × List Nat

/-- The text-extraction loop of `add_documents`: applies `docs2text` to each
doc and fails at the first non-string result. -/
def extractTexts (docs2text : PyVal → PyVal) : List PyVal → Except String (List String)
  | [] => .ok []
  | d :: ds =>
    match docs2text d with
    | .str s => (extractTexts docs2text ds).map (fun ts => s :: ts)
    | _ => .error "docs2text(doc) should return a string."

/-- The id-validation loop of `add_documents`: every doc_id must be an
`int`; collects the ids and, in order, those already present in the store. -/
def checkIds (db : List (Int × DocRecord)) : List PyVal → Except String (List Int × List Int)
  | [] => .ok ([], [])
  | v :: vs =>
    match v with
    | .int i =>
      (checkIds db vs).map (fun p =>
        (i :: p.1, if dbContains db i then i :: p.2 else p.2))
    | _ => .error "doc_id is not an int."

/-- `self.save()`: writes the faiss index snapshot to disk. -/
def saveDB (st : DBState) : DBState := { st with disk_index := st.index }

/-- `remove_doc(doc_id, save)`: raises if the id is absent from the store;
otherwise removes it from the index, then from the store, then persists if
`save`. -/
def remove_doc (st : DBState) (doc_id : Int) (save : Bool) :
    DBState × Except String Unit :=
  if dbContains st.doc_db doc_id then
    let st1 := { st with
      index := remove_ids st.index [doc_id],
      doc_db := dbDel st.doc_db doc_id }
    (if save then saveDB st1 else st1, .ok ())
  else
    (st, .error "Document not found.")

/-- The deduplication loop of `add_documents`: `remove_doc(idx, save=False)`
for each already-present id, propagating a failure at the state it occurs. -/
def runRemovals (st : DBState) : List Int → DBState × Except String Unit
  | [] => (st, .ok ())
  | i :: is =>
    match remove_doc st i false with
    | (st1, .ok _) => runRemovals st1 is
    | (st1, .error e) => (st1, .error e)

/-- `chunksGo bs fuel l`: fuel-indexed worker for `chunks`. -/
def chunksGo {α : Type} (bs : Nat) : Nat → List α → List (List α)
  | 0, _ => []
  | _, [] => []
  | fuel + 1, a :: l => (a :: l.take (bs - 1)) :: chunksGo bs fuel (l.drop (bs - 1))

/-- The batching of `add_documents` (`range(0, len(texts), batch_size)`
with parallel slices): splits a list into consecutive chunks of `bs`. -/
def chunks {α : Type} (bs : Nat) (l : List α) : List (List α) :=
  chunksGo bs l.length l

/-- `_add_batch`: append the ubinary vectors to the index under the given
ids, then store each `(doc, emb_int8)` record under its id. -/
def _add_batch (st : DBState) (doc_ids : List Int) (docs : List PyVal)
    (emb_ub : List (List Nat)) (emb_i8 : List (List Int)) : DBState :=
  { st with
    index := add_with_ids st.index emb_ub doc_ids,
    doc_db := putMany st.doc_db
      (doc_ids.zip ((docs.zip emb_i8).map (fun p => ⟨p.1, p.2⟩))) }

/-- The per-batch loop of `add_documents`: embed the batch texts in
document mode and `_add_batch` the results.  Each batch element is an
`(id, doc, text)` triple (the three parallel slices of the source). -/
def runBatches (co : Embedder) (st : DBState)
    (batches : List (List (Int × PyVal × String))) : DBState :=
  batches.foldl (fun s b =>
    _add_batch s (b.map (fun t => t.1)) (b.map (fun t => t.2.1))
      (b.map (fun t => (co.embedDoc s.model t.2.2).1))
      (b.map (fun t => (co.embedDoc s.model t.2.2).2))) st

/-- `add_documents(doc_ids, docs, docs2text, batch_size, save)`: length
validation, text extraction, id validation, deduplication removals, then
batched embedding and insertion, then an optional save. -/
def add_documents (co : Embedder) (st : DBState) (doc_ids : List PyVal)
    (docs : List PyVal) (docs2text : PyVal → PyVal) (batch_size : Nat)
    (save : Bool) : DBState × Except String Unit :=
  if doc_ids.length ≠ docs.length then
    (st, .error "ids and docs must have the same length.")
  else
    match extractTexts docs2text docs with
    | .error e => (st, .error e)
    | .ok texts =>
      match checkIds st.doc_db doc_ids with
      | .error e => (st, .error e)
      | .ok (ids, existing) =>
        match runRemovals st existing with
        | (st1, .error e) => (st1, .error e)
        | (st1, .ok _) =>
          let st2 := runBatches co st1
            (chunks batch_size (ids.zip (docs.zip texts)))
          (if save then saveDB st2 else st2, .ok ())

/-! ### Search pipeline -/

/-- Descending-by-key comparison used to model Python's stable
`list.sort(key=f, reverse=True)`. -/
def descBy {α β : Type} [LinearOrder β] (f : α → β) : α → α → Prop :=
  fun a b => f b ≤ f a

instance {α β : Type} [LinearOrder β] (f : α → β) : DecidableRel (descBy f) :=
  fun a b => inferInstanceAs (Decidable (f b ≤ f a))

instance {α β : Type} [LinearOrder β] (f : α → β) : IsTotal α (descBy f) :=
  ⟨fun a b => le_total (f b) (f a)⟩

instance {α β : Type} [LinearOrder β] (f : α → β) : IsTrans α (descBy f) :=
  ⟨fun _ _ _ h1 h2 => le_trans h2 h1⟩

/-- Ascending-by-key comparison (faiss returns nearest first). -/
def ascBy {α β : Type} [LinearOrder β] (f : α → β) : α → α → Prop :=
  fun a b => f a ≤ f b

instance {α β : Type} [LinearOrder β] (f : α → β) : DecidableRel (ascBy f) :=
  fun a b => inferInstanceAs (Decidable (f a ≤ f b))

instance {α β : Type} [LinearOrder β] (f : α → β) : IsTotal α (ascBy f) :=
  ⟨fun a b => le_total (f a) (f b)⟩

instance {α β : Type} [LinearOrder β] (f : α → β) : IsTrans α (ascBy f) :=
  ⟨fun _ _ _ h1 h2 => le_trans h1 h2⟩

/-- `np.unpackbits` on one byte: its 8 bits, most significant first. -/
def unpackByte (b : Nat) : List Nat :=
  (List.range 8).map (fun i => b / 2 ^ (7 - i) % 2)

/-- `np.unpackbits(v, axis=-1)` on a packed byte vector. -/
def unpackbits (bs : List Nat) : List Nat := bs.flatMap unpackByte

/-- `2 * bits - 1`: the symmetric ±1 remapping of unpacked bits. -/
def pmOne (bits : List Nat) : List Int := bits.map (fun b => 2 * (b : Int) - 1)

/-- Dot product of a float (rational) query with an integer vector. -/
def dotQZ (q : List ℚ) (v : List Int) : ℚ :=
  (List.zipWith (fun a b => a * (b : ℚ)) q v).sum

/-- `‖v‖₂²` of an int8 vector, as an exact rational. -/
def normSq (v : List Int) : ℚ := (((v.map (fun x => x * x)).sum : Int) : ℚ)

/-- Number of differing bits between two packed byte vectors (the Hamming
distance faiss computes on binary vectors). -/
def hamming (a b : List Nat) : Nat :=
  (List.zipWith (fun x y => (unpackByte (x ^^^ y)).sum) a b).sum

/-- A Phase III cosine score `dot / ‖v‖₂`, carried exactly as the pair of
its numerator and the squared norm (machine floats idealised to exact
reals). -/
structure Cos where
  dot : ℚ
  nsq : ℚ
deriving DecidableEq, Repr

/-- The real value of a cosine score: `dot / √nsq`. -/
noncomputable def Cos.toReal (c : Cos) : ℝ :=
  (c.dot : ℝ) / Real.sqrt (c.nsq : ℝ)

/-- Rational encoding of a cosine score that is order-isomorphic to its
real value (signed square); all float comparisons on cosine scores in the
source are modelled through it. -/
def Cos.key (c : Cos) : ℚ :=
  if c.dot < 0 then -(c.dot ^ 2 / c.nsq) else c.dot ^ 2 / c.nsq

/-- The cosine score of a stored int8 vector against the float query:
`(query_emb_float[0] @ doc_emb_int8.T) / np.linalg.norm(doc_emb_int8)`. -/
def cosOf (q : List ℚ) (v : List Int) : Cos := ⟨dotQZ q v, normSq v⟩

/-- A Phase I hit: `{'doc_id': ..., 'score_hamming': ...}`. -/
structure Hit1 where
  doc_id : Int
  score_hamming : Nat
deriving DecidableEq, Repr

/-- A Phase II hit: a Phase I hit with its `score_binary`. -/
structure Hit2 where
  doc_id : Int
  score_hamming : Nat
  score_binary : ℚ
deriving DecidableEq, Repr

/-- A Phase III hit before scoring: a Phase II hit with its payload. -/
structure Hit3 where
  doc_id : Int
  score_hamming : Nat
  score_binary : ℚ
  doc : PyVal
deriving DecidableEq, Repr

/-- A final hit: all fields including `score_cossim`. -/
structure Hit4 where
  doc_id : Int
  score_hamming : Nat
  score_binary : ℚ
  doc : PyVal
  score_cossim : Cos
deriving DecidableEq, Repr

/-- The result of `_search_emb`: the `False` sentinel, or the
`(hits, scores3)` pair. -/
inductive SearchOutcome where
  | noMatch
  | results (hits : List Hit4) (scores3 : List Cos)
deriving DecidableEq, Repr

/-- A list comprehension whose body may fail (a Python loop raising at the
first failing element). -/
def mapOpt {α β : Type} (f : α → Option β) : List α → Option (List β)
  | [] => some []
  | a :: l => (f a).bind (fun b => (mapOpt f l).map (fun bs => b :: bs))

/-- `self.index.search(query_emb_ubinary, k)`: distances of the query to
every indexed vector, nearest first (stable on ties), truncated to `k`. -/
def index_search (idx : List (Int × List Nat)) (q : List Nat) (k : Nat) :
    List Hit1 :=
  (List.insertionSort (ascBy Hit1.score_hamming)
    (idx.map (fun p => ⟨p.1, hamming q p.2⟩))).take k

/-- Phase I of `_search_emb`: coarse recall from the binary index. -/
def phase1 (idx : List (Int × List Nat)) (q_ub : List Nat) (binary_k : Nat) :
    List Hit1 :=
  index_search idx q_ub binary_k

/-- Phase II of `_search_emb`: reconstruct each candidate's binary vector,
score it by `query_float · (2 * unpackbits - 1)`, sort descending by that
score and keep the best `int8_rescore`. -/
def phase2 (idx : List (Int × List Nat)) (q_float : List ℚ)
    (hits : List Hit1) (int8_rescore : Nat) : Option (List Hit2) :=
  (mapOpt (fun h => (reconstruct idx h.doc_id).map (fun v =>
      Hit2.mk h.doc_id h.score_hamming (dotQZ q_float (pmOne (unpackbits v)))))
    hits).map
    (fun l => (List.insertionSort (descBy Hit2.score_binary) l).take int8_rescore)

/-- The Phase III fetch loop: for each survivor, load its record from the
document store, attaching the payload and keeping the int8 embedding. -/
def fetchRecords (db : List (Int × DocRecord)) (hits : List Hit2) :
    Option (List (Hit3 × List Int)) :=
  mapOpt (fun h => (dbGet db h.doc_id).map (fun r =>
    (Hit3.mk h.doc_id h.score_hamming h.score_binary r.doc, r.emb_int8))) hits

/-- Phase III of `_search_emb`: cosine-rescore the survivors against their
stored int8 embeddings; if `scores3[0] < 0.5` return the `False` sentinel,
otherwise attach the scores, sort descending by them, truncate to `k`, and
return `(hits, scores3)`. -/
def phase3 (db : List (Int × DocRecord)) (q_float : List ℚ)
    (hits : List Hit2) (k : Nat) : Option SearchOutcome :=
  (fetchRecords db hits).bind (fun pairs =>
    match pairs with
    | [] => none
    | p0 :: rest =>
      let scores3 := (p0 :: rest).map (fun p => cosOf q_float p.2)
      if (cosOf q_float p0.2).key < 1 / 4 then
        some .noMatch
      else
        let hits4 := (p0 :: rest).map (fun p =>
          Hit4.mk p.1.doc_id p.1.score_hamming p.1.score_binary p.1.doc
            (cosOf q_float p.2))
        some (.results
          ((List.insertionSort (descBy (fun h => Cos.key h.score_cossim)) hits4).take k)
          scores3))

/-- `_search_emb(query_emb_float, query_emb_ubinary, k, binary_oversample,
int8_oversample)`: the three-phase pipeline.  `none` models an uncaught
runtime exception (missing key / empty `vstack`). -/
def _search_emb (st : DBState) (q_float : List ℚ) (q_ub : List Nat)
    (k binary_oversample int8_oversample : Nat) : Option SearchOutcome :=
  let binary_k := min (k * binary_oversample) (ntotal st.index)
  let int8_rescore := k * int8_oversample
  (phase2 st.index q_float (phase1 st.index q_ub binary_k) int8_rescore).bind
    (fun h2 => phase3 st.doc_db q_float h2 k)

/-- The Phase III score vector `scores3` a search run computes (same
pipeline prefix as `_search_emb`, stopping before the threshold check). -/
def searchScores (st : DBState) (q_float : List ℚ) (q_ub : List Nat)
    (k binary_oversample int8_oversample : Nat) : Option (List Cos) :=
  let binary_k := min (k * binary_oversample) (ntotal st.index)
  let int8_rescore := k * int8_oversample
  (phase2 st.index q_float (phase1 st.index q_ub binary_k) int8_rescore).bind
    (fun h2 => (fetchRecords st.doc_db h2).map
      (fun pairs => pairs.map (fun p => cosOf q_float p.2)))

/-- `search(query, k, ...)`: raises on an empty index, embeds the query in
query mode, and delegates to `_search_emb`. -/
def search (co : Embedder) (st : DBState) (query : String)
    (k binary_oversample int8_oversample : Nat) :
    Except String (Option SearchOutcome) :=
  if ntotal st.index == 0 then
    .error "No documents indexed. Please add documents before searching."
  else
    let qe := co.embedQuery st.model query
    .ok (_search_emb st qe.1 qe.2 k binary_oversample int8_oversample)

/-! ### Constructor / config lifecycle -/

/-- The content of a file in the database folder. -/
inductive FileContent where
  | configFile (version : String) (model : String)
  | indexFile (idx : List (Int × List Nat))
  | otherFile
deriving DecidableEq, Repr

/-- The parsed `config.json`. -/
structure Config where
  version : String
  model : String
deriving DecidableEq, Repr

/-- `BinaryVectorDB.__init__` restricted to the folder/config/index
lifecycle.  The folder is `none` when absent, else its files.  Returns the
folder state afterwards and either an error or the loaded
`(config, index)`. -/
def dbInit (folder : Option (List (String × FileContent))) (model : String) :
    Option (List (String × FileContent)) × Except String (Config × List (Int × List Nat)) :=
  let files := folder.getD []
  let cfgExists := (files.lookup "config.json").isSome
  let folder1 :=
    if cfgExists then files
    else files ++ [("config.json", .configFile "1.0" model)]
  if ¬cfgExists ∧ folder.isSome ∧ files ≠ [] then
    (folder, .error "Folder contains files, but no config.json.")
  else
    match folder1.lookup "config.json" with
    | some (.configFile v m) =>
      match folder1.lookup "index.bin" with
      | none => (some folder1, .ok (⟨v, m⟩, []))
      | some (.indexFile idx) => (some folder1, .ok (⟨v, m⟩, idx))
      | some _ => (some folder1, .error "could not read index.bin")
    | _ => (some folder1, .error "could not parse config.json")

/-! ### Concrete fixtures (8-dimensional embeddings, 1 packed byte) -/

/-- A deterministic embedder fixture. -/
def exEmbedder : Embedder where
  embedDoc := fun _ _ => ([5], [4, 0, 0, 0, 0, 0, 0, 0])
  embedQuery := fun _ _ => ([], [])

/-- An empty database. -/
def exState0 : DBState :=
  { index := [], doc_db := [], disk_index := [], model := "m" }

/-- A one-document database (doc_id 7). -/
def exState1 : DBState :=
  { index := [(7, [9])],
    doc_db := [(7, ⟨.str "old", [3, 0, 0, 0, 0, 0, 0, 0]⟩)],
    disk_index := [(7, [9])],
    model := "m" }

/-- A two-document database: doc 1 has binary embedding `0b11111111` and
int8 embedding `e₁`; doc 2 has binary embedding `0b00000000` and int8
embedding `e₂`. -/
def exState2 : DBState :=
  { index := [(1, [255]), (2, [0])],
    doc_db := [(1, ⟨.str "A", [1, 0, 0, 0, 0, 0, 0, 0]⟩),
               (2, ⟨.str "B", [0, 1, 0, 0, 0, 0, 0, 0]⟩)],
    disk_index := [],
    model := "m" }

/-- A float query whose cosine with doc 1 is 0.4 and with doc 2 is 0.9. -/
def exQueryLow : List ℚ := [2/5, 9/10, 0, 0, 0, 0, 0, 0]

/-- A float query whose cosine with doc 1 is 0.9 and with doc 2 is 0.4. -/
def exQueryHigh : List ℚ := [9/10, 2/5, 0, 0, 0, 0, 0, 0]

/-- The Phase III score vector `exState2` produces for `exQueryLow`. -/
def exScoresLow : List Cos := [⟨2/5, 1⟩, ⟨9/10, 1⟩]

/-! ### The rational score encoding is order-isomorphic to the real value -/

/-- The signed square `x ↦ sign(x) · x²`, strictly monotone on `ℝ`. -/
noncomputable def sgnSq (x : ℝ) : ℝ := if x < 0 then -(x ^ 2) else x ^ 2

theorem sgnSq_strictMono : StrictMono sgnSq := by
  intro x y hxy
  unfold sgnSq
  rcases lt_or_le x 0 with hx | hx
  · rcases lt_or_le y 0 with hy | hy
    · simp only [if_pos hx, if_pos hy]
      nlinarith
    · simp only [if_pos hx, if_neg (not_lt.mpr hy)]
      nlinarith
  · rcases lt_or_le y 0 with hy | hy
    · exact absurd (lt_of_le_of_lt hx hxy) (not_lt.mpr hy.le)
    · simp only [if_neg (not_lt.mpr hx), if_neg (not_lt.mpr hy)]
      nlinarith

theorem Cos.key_eq_sgnSq (c : Cos) (hc : 0 < c.nsq) :
    (c.key : ℝ) = sgnSq c.toReal := by
  have hc' : (0 : ℝ) < (c.nsq : ℝ) := by exact_mod_cast hc
  have hs : (0 : ℝ) < Real.sqrt (c.nsq : ℝ) := Real.sqrt_pos.mpr hc'
  have hsq : Real.sqrt (c.nsq : ℝ) ^ 2 = (c.nsq : ℝ) := Real.sq_sqrt hc'.le
  have hval : c.toReal ^ 2 = (c.dot : ℝ) ^ 2 / (c.nsq : ℝ) := by
    rw [Cos.toReal, div_pow, hsq]
  have hsign : c.toReal < 0 ↔ (c.dot : ℝ) < 0 := by
    rw [Cos.toReal]
    constructor
    · intro h
      by_contra hnot
      exact absurd (div_nonneg (not_lt.mp hnot) hs.le) (not_le.mpr h)
    · intro h
      exact div_neg_of_neg_of_pos h hs
  unfold Cos.key sgnSq
  rcases lt_or_le c.dot 0 with hd | hd
  · have hd' : (c.dot : ℝ) < 0 := by exact_mod_cast hd
    rw [if_pos hd, if_pos (hsign.mpr hd'), hval]
    push_cast
    ring
  · have hd' : (0 : ℝ) ≤ (c.dot : ℝ) := by exact_mod_cast hd
    have hnot : ¬ c.toReal < 0 := fun h => (hsign.mp h).not_le hd'
    rw [if_neg (not_lt.mpr hd), if_neg hnot, hval]
    push_cast
    ring

theorem Cos.key_le_key_iff {a b : Cos} (ha : 0 < a.nsq) (hb : 0 < b.nsq) :
    a.key ≤ b.key ↔ a.toReal ≤ b.toReal := by
  rw [← Rat.cast_le (K := ℝ), Cos.key_eq_sgnSq a ha, Cos.key_eq_sgnSq b hb]
  exact sgnSq_strictMono.le_iff_le

theorem Cos.key_lt_quarter_iff {c : Cos} (hc : 0 < c.nsq) :
    c.key < 1 / 4 ↔ c.toReal < 1 / 2 := by
  have h4 : ((1 / 4 : ℚ) : ℝ) = sgnSq (1 / 2) := by
    unfold sgnSq
    norm_num
  rw [← Rat.cast_lt (K := ℝ), Cos.key_eq_sgnSq c hc, h4]
  exact sgnSq_strictMono.lt_iff_lt

/-! ### Helper lemmas about the store and index operations -/

theorem mapOpt_length {α β : Type} {f : α → Option β} :
    ∀ {l : List α} {l' : List β}, mapOpt f l = some l' → l'.length = l.length := by
  intro l
  induction l with
  | nil => intro l' h; simp [mapOpt] at h; simp [← h]
  | cons a t ih =>
    intro l' h
    simp only [mapOpt, Option.bind_eq_some, Option.map_eq_some'] at h
    obtain ⟨b, _, bs, hbs, rfl⟩ := h
    simp [ih hbs]

theorem mapOpt_mem {α β : Type} {f : α → Option β} :
    ∀ {l : List α} {l' : List β}, mapOpt f l = some l' →
      ∀ y ∈ l', ∃ x ∈ l, f x = some y := by
  intro l
  induction l with
  | nil =>
    intro l' h y hy
    simp only [mapOpt, Option.some.injEq] at h
    subst h
    simp at hy
  | cons a t ih =>
    intro l' h y hy
    simp only [mapOpt, Option.bind_eq_some, Option.map_eq_some'] at h
    obtain ⟨b, hb, bs, hbs, rfl⟩ := h
    rcases List.mem_cons.mp hy with rfl | hy'
    · exact ⟨a, List.mem_cons_self _ _, hb⟩
    · obtain ⟨x, hx, hfx⟩ := ih hbs y hy'
      exact ⟨x, List.mem_cons_of_mem _ hx, hfx⟩

theorem mapOpt_get {α β : Type} {f : α → Option β} :
    ∀ {l : List α} {l' : List β} (h : mapOpt f l = some l')
      (i : Nat) (hi : i < l.length) (hi' : i < l'.length),
      f (l.get ⟨i, hi⟩) = some (l'.get ⟨i, hi'⟩) := by
  intro l
  induction l with
  | nil => intro l' h i hi hi'; simp at hi
  | cons a t ih =>
    intro l' h i hi hi'
    simp only [mapOpt, Option.bind_eq_some, Option.map_eq_some'] at h
    obtain ⟨b, hb, bs, hbs, rfl⟩ := h
    match i with
    | 0 => simpa using hb
    | n + 1 =>
      exact ih hbs n (Nat.lt_of_succ_lt_succ hi) (Nat.lt_of_succ_lt_succ hi')

theorem mapOpt_isSome {α β : Type} {f : α → Option β} :
    ∀ (l : List α), (∀ x ∈ l, (f x).isSome) → ∃ l', mapOpt f l = some l' := by
  intro l
  induction l with
  | nil => intro _; exact ⟨[], rfl⟩
  | cons a t ih =>
    intro h
    obtain ⟨b, hb⟩ := Option.isSome_iff_exists.mp (h a (List.mem_cons_self _ _))
    obtain ⟨bs, hbs⟩ := ih (fun x hx => h x (List.mem_cons_of_mem _ hx))
    exact ⟨b :: bs, by simp [mapOpt, hb, hbs]⟩

theorem keysOf_filter_ne (db : List (Int × DocRecord)) (k : Int) :
    keysOf (db.filter (fun p => p.1 != k)) = (keysOf db).filter (fun j => j != k) := by
  induction db with
  | nil => rfl
  | cons p l ih =>
    by_cases h : p.1 = k
    · simp [keysOf, List.filter_cons, h] at ih ⊢
      exact ih
    · simp [keysOf, List.filter_cons, h] at ih ⊢
      exact ih

theorem mem_keysOf_dbDel {db : List (Int × DocRecord)} {k j : Int} :
    j ∈ keysOf (dbDel db k) ↔ j ∈ keysOf db ∧ j ≠ k := by
  rw [dbDel, keysOf_filter_ne]
  simp [List.mem_filter]

theorem nodup_keysOf_dbDel {db : List (Int × DocRecord)} {k : Int}
    (h : (keysOf db).Nodup) : (keysOf (dbDel db k)).Nodup := by
  rw [dbDel, keysOf_filter_ne]
  exact h.filter _

theorem keysOf_append (db1 db2 : List (Int × DocRecord)) :
    keysOf (db1 ++ db2) = keysOf db1 ++ keysOf db2 := by
  simp [keysOf]

theorem mem_keysOf_dbPut {db : List (Int × DocRecord)} {k j : Int} {v : DocRecord} :
    j ∈ keysOf (dbPut db k v) ↔ j ∈ keysOf db ∨ j = k := by
  rw [dbPut, keysOf_append, List.mem_append]
  have h1 : keysOf (db.filter (fun p => p.1 != k)) = (keysOf db).filter (fun j => j != k) :=
    keysOf_filter_ne db k
  rw [h1]
  simp only [keysOf, List.map_cons, List.map_nil, List.mem_singleton, List.mem_filter]
  constructor
  · rintro (⟨hj, _⟩ | rfl)
    · exact Or.inl hj
    · exact Or.inr rfl
  · rintro (hj | rfl)
    · by_cases hk : j = k
      · exact Or.inr hk
      · exact Or.inl ⟨hj, by simp [hk]⟩
    · exact Or.inr rfl

theorem nodup_keysOf_dbPut {db : List (Int × DocRecord)} {k : Int} {v : DocRecord}
    (h : (keysOf db).Nodup) : (keysOf (dbPut db k v)).Nodup := by
  rw [dbPut, keysOf_append, keysOf_filter_ne]
  refine List.Nodup.append (h.filter _) (by simp [keysOf]) ?_
  intro j hj hj'
  simp only [List.mem_filter] at hj
  simp only [keysOf, List.map_cons, List.map_nil, List.mem_singleton] at hj'
  subst hj'
  simpa using hj.2

theorem mem_keysOf_putMany {l : List (Int × DocRecord)} :
    ∀ {db : List (Int × DocRecord)} {j : Int},
      j ∈ keysOf (putMany db l) ↔ j ∈ keysOf db ∨ j ∈ l.map (fun p => p.1) := by
  induction l with
  | nil => intro db j; simp [putMany]
  | cons p t ih =>
    intro db j
    have : putMany db (p :: t) = putMany (dbPut db p.1 p.2) t := rfl
    rw [this, ih, mem_keysOf_dbPut]
    simp only [List.map_cons, List.mem_cons]
    tauto

theorem nodup_keysOf_putMany {l : List (Int × DocRecord)} :
    ∀ {db : List (Int × DocRecord)}, (keysOf db).Nodup →
      (keysOf (putMany db l)).Nodup := by
  induction l with
  | nil => intro db h; exact h
  | cons p t ih =>
    intro db h
    exact ih (nodup_keysOf_dbPut h)

theorem dbGet_cons {p : Int × DocRecord} {db : List (Int × DocRecord)} {k : Int} :
    dbGet (p :: db) k = if p.1 == k then some p.2 else dbGet db k := by
  by_cases h : p.1 == k
  · simp [dbGet, List.find?_cons_of_pos _ h, h]
  · simp [dbGet, List.find?_cons_of_neg _ h, h]

theorem dbContains_iff {db : List (Int × DocRecord)} {k : Int} :
    dbContains db k = true ↔ k ∈ keysOf db := by
  induction db with
  | nil => simp [dbContains, keysOf]
  | cons p l ih =>
    simp only [dbContains, List.any_cons, Bool.or_eq_true, beq_iff_eq, keysOf,
      List.map_cons, List.mem_cons] at ih ⊢
    rw [ih]
    constructor
    · rintro (h | h)
      · exact Or.inl h.symm
      · exact Or.inr h
    · rintro (h | h)
      · exact Or.inl h.symm
      · exact Or.inr h

theorem dbGet_isSome_iff {db : List (Int × DocRecord)} {k : Int} :
    (dbGet db k).isSome = true ↔ k ∈ keysOf db := by
  induction db with
  | nil => simp [dbGet, keysOf]
  | cons p l ih =>
    rw [dbGet_cons]
    by_cases h : p.1 = k
    · simp [keysOf, h]
    · have hne : (p.1 == k) = false := by simpa using h
      have hm : k ∈ keysOf (p :: l) ↔ k = p.1 ∨ k ∈ keysOf l := by
        simp [keysOf]
      rw [hne, hm]
      simp only [Bool.false_eq_true, if_false]
      rw [ih]
      constructor
      · exact Or.inr
      · rintro (h1 | h1)
        · exact absurd h1.symm h
        · exact h1

theorem dbGet_mem {db : List (Int × DocRecord)} {k : Int} {r : DocRecord} :
    dbGet db k = some r → (k, r) ∈ db := by
  induction db with
  | nil => intro h; simp [dbGet] at h
  | cons p l ih =>
    rw [dbGet_cons]
    by_cases h : p.1 = k
    · intro h1
      simp only [h, beq_self_eq_true, if_true] at h1
      have hp : p = (k, r) := Prod.ext h (by simpa using h1)
      rw [← hp]
      exact List.mem_cons_self _ _
    · intro h1
      have hne : (p.1 == k) = false := by simpa using h
      rw [hne] at h1
      simp only [Bool.false_eq_true, if_false] at h1
      exact List.mem_cons_of_mem _ (ih h1)

theorem dbGet_dbPut_self {db : List (Int × DocRecord)} {k : Int} {v : DocRecord} :
    dbGet (dbPut db k v) k = some v := by
  induction db with
  | nil => simp [dbPut, dbGet]
  | cons p l ih =>
    by_cases h : p.1 = k
    · have heq : dbPut (p :: l) k v = dbPut l k v := by
        simp [dbPut, List.filter_cons, h]
      rw [heq]
      exact ih
    · have heq : dbPut (p :: l) k v = p :: dbPut l k v := by
        simp [dbPut, List.filter_cons, h]
      rw [heq, dbGet_cons]
      have hne : (p.1 == k) = false := by simpa using h
      rw [hne]
      simpa using ih

theorem dbGet_dbPut_ne {db : List (Int × DocRecord)} {k j : Int} {v : DocRecord}
    (hjk : j ≠ k) : dbGet (dbPut db k v) j = dbGet db j := by
  induction db with
  | nil =>
    simp only [dbPut, List.filter_nil, List.nil_append, dbGet_cons]
    have hne : (k == j) = false := by simpa using fun h => hjk h.symm
    rw [hne]
    simp [dbGet]
  | cons p l ih =>
    by_cases h : p.1 = k
    · have heq : dbPut (p :: l) k v = dbPut l k v := by
        simp [dbPut, List.filter_cons, h]
      have hpj : (p.1 == j) = false := by
        simp only [beq_eq_false_iff_ne, ne_eq]
        rw [h]
        exact fun hh => hjk hh.symm
      rw [heq, ih, dbGet_cons, hpj]
      simp
    · have heq : dbPut (p :: l) k v = p :: dbPut l k v := by
        simp [dbPut, List.filter_cons, h]
      rw [heq, dbGet_cons, dbGet_cons, ih]

theorem dbGet_dbDel_self {db : List (Int × DocRecord)} {k : Int} :
    dbGet (dbDel db k) k = none := by
  simp only [dbGet, Option.map_eq_none']
  rw [List.find?_eq_none]
  intro p hp
  have := (List.mem_filter.mp hp).2
  simpa using this

theorem dbGet_dbDel_ne {db : List (Int × DocRecord)} {k j : Int}
    (hjk : j ≠ k) : dbGet (dbDel db k) j = dbGet db j := by
  induction db with
  | nil => simp [dbDel]
  | cons p l ih =>
    by_cases h : p.1 = k
    · have heq : dbDel (p :: l) k = dbDel l k := by
        simp [dbDel, List.filter_cons, h]
      have hpj : (p.1 == j) = false := by
        simp only [beq_eq_false_iff_ne, ne_eq]
        rw [h]
        exact fun hh => hjk hh.symm
      rw [heq, ih, dbGet_cons, hpj]
      simp
    · have heq : dbDel (p :: l) k = p :: dbDel l k := by
        simp [dbDel, List.filter_cons, h]
      rw [heq, dbGet_cons, dbGet_cons, ih]

/-! ### Index lemmas -/

theorem idsOf_append (a b : List (Int × List Nat)) :
    idsOf (a ++ b) = idsOf a ++ idsOf b := by
  simp [idsOf]

theorem idsOf_add_with_ids {idx : List (Int × List Nat)} {embs : List (List Nat)}
    {ids : List Int} (h : ids.length ≤ embs.length) :
    idsOf (add_with_ids idx embs ids) = idsOf idx ++ ids := by
  rw [add_with_ids, idsOf_append]
  congr 1
  exact List.map_fst_zip ids embs h

theorem mem_idsOf_remove_ids {idx : List (Int × List Nat)} {i j : Int} :
    j ∈ idsOf (remove_ids idx [i]) ↔ j ∈ idsOf idx ∧ j ≠ i := by
  simp only [remove_ids, idsOf, List.mem_map]
  constructor
  · rintro ⟨p, hp, rfl⟩
    have hm := List.mem_filter.mp hp
    refine ⟨⟨p, hm.1, rfl⟩, ?_⟩
    have := hm.2
    simpa using this
  · rintro ⟨⟨p, hp, rfl⟩, hne⟩
    exact ⟨p, List.mem_filter.mpr ⟨hp, by simpa using hne⟩, rfl⟩

theorem reconstruct_isSome_iff {idx : List (Int × List Nat)} {i : Int} :
    (reconstruct idx i).isSome = true ↔ i ∈ idsOf idx := by
  simp only [reconstruct, Option.isSome_map']
  rw [List.find?_isSome]
  simp only [idsOf, List.mem_map]
  constructor
  · rintro ⟨p, hp, hpk⟩
    exact ⟨p, List.mem_reverse.mp hp, by simpa using hpk⟩
  · rintro ⟨p, hp, rfl⟩
    exact ⟨p, List.mem_reverse.mpr hp, by simp⟩

theorem reconstruct_remove_ids_self {idx : List (Int × List Nat)} {i : Int} :
    reconstruct (remove_ids idx [i]) i = none := by
  simp only [reconstruct, Option.map_eq_none']
  rw [List.find?_eq_none]
  intro p hp
  have := (List.mem_filter.mp (List.mem_reverse.mp hp)).2
  simpa using this

theorem reconstruct_append_singleton {idx : List (Int × List Nat)} {i : Int}
    {v : List Nat} : reconstruct (idx ++ [(i, v)]) i = some v := by
  simp [reconstruct, List.reverse_append, List.find?_cons_of_pos]

/-! ### The lockstep invariant -/

/-- The two stores are in lockstep: the set of ids in the binary index
equals the set of keys of the document store, and the store has no
duplicate keys. -/
def Lockstep (st : DBState) : Prop :=
  (idsOf st.index).toFinset = (keysOf st.doc_db).toFinset ∧ (keysOf st.doc_db).Nodup

instance (st : DBState) : Decidable (Lockstep st) := by
  unfold Lockstep
  infer_instance

theorem lockstep_remove_doc {st : DBState} {i : Int} {save : Bool}
    (h : Lockstep st) : Lockstep (remove_doc st i save).1 := by
  obtain ⟨hset, hnd⟩ := h
  rw [remove_doc]
  by_cases hc : dbContains st.doc_db i
  · have hL : Lockstep { st with
        index := remove_ids st.index [i], doc_db := dbDel st.doc_db i } := by
      constructor
      · apply Finset.ext
        intro j
        simp only [List.mem_toFinset, mem_idsOf_remove_ids, mem_keysOf_dbDel]
        have := Finset.ext_iff.mp hset j
        simp only [List.mem_toFinset] at this
        rw [this]
      · exact nodup_keysOf_dbDel hnd
    rw [if_pos hc]
    by_cases hs : save
    · simpa [hs, saveDB] using hL
    · simpa [hs] using hL
  · rw [if_neg hc]
    exact ⟨hset, hnd⟩

theorem lockstep_runRemovals {ids : List Int} :
    ∀ {st : DBState}, Lockstep st → Lockstep (runRemovals st ids).1 := by
  induction ids with
  | nil => intro st h; exact h
  | cons i t ih =>
    intro st h
    rw [runRemovals]
    rcases hrm : remove_doc st i false with ⟨st1, r⟩
    have h1 : Lockstep st1 := by
      have := @lockstep_remove_doc st i false h
      rwa [hrm] at this
    match r with
    | .ok _ => exact ih h1
    | .error _ => exact h1

theorem lockstep_add_batch {st : DBState} {ids : List Int} {docs : List PyVal}
    {ub : List (List Nat)} {i8 : List (List Int)}
    (hub : ids.length ≤ ub.length) (hdocs : ids.length ≤ docs.length)
    (hi8 : ids.length ≤ i8.length)
    (h : Lockstep st) : Lockstep (_add_batch st ids docs ub i8) := by
  obtain ⟨hset, hnd⟩ := h
  constructor
  · apply Finset.ext
    intro j
    have hlen : ids.length ≤ ((docs.zip i8).map
        (fun p => (⟨p.1, p.2⟩ : DocRecord))).length := by
      simp only [List.length_map, List.length_zip]
      exact le_min hdocs hi8
    simp only [_add_batch, List.mem_toFinset, idsOf_add_with_ids hub,
      mem_keysOf_putMany, List.mem_append]
    rw [List.map_fst_zip _ _ hlen]
    have := Finset.ext_iff.mp hset j
    simp only [List.mem_toFinset] at this
    rw [this]
  · exact nodup_keysOf_putMany hnd

theorem lockstep_runBatches {co : Embedder}
    {batches : List (List (Int × PyVal × String))} :
    ∀ {st : DBState}, Lockstep st → Lockstep (runBatches co st batches) := by
  induction batches with
  | nil => intro st h; exact h
  | cons b t ih =>
    intro st h
    have hb : Lockstep (_add_batch st (b.map (fun x => x.1))
        (b.map (fun x => x.2.1))
        (b.map (fun x => (co.embedDoc st.model x.2.2).1))
        (b.map (fun x => (co.embedDoc st.model x.2.2).2))) := by
      refine lockstep_add_batch ?_ ?_ ?_ h <;> simp
    have hstep : runBatches co st (b :: t) = runBatches co
        (_add_batch st (b.map (fun x => x.1)) (b.map (fun x => x.2.1))
          (b.map (fun x => (co.embedDoc st.model x.2.2).1))
          (b.map (fun x => (co.embedDoc st.model x.2.2).2))) t := rfl
    rw [hstep]
    exact ih hb

theorem dbContains_eq_dbGet_isSome {db : List (Int × DocRecord)} {k : Int} :
    dbContains db k = (dbGet db k).isSome := by
  rw [Bool.eq_iff_iff, dbContains_iff, dbGet_isSome_iff]

/-! ### Claim theorems -/

/-- C8: `remove_doc(doc_id, save)` raises a not-found error iff the id is
absent from the document store, in which case both stores are untouched;
when present it removes the id from the binary index and the store
(leaving all other entries in place) and writes the index snapshot to disk
exactly when `save` is set. -/
theorem remove_doc_spec (st : DBState) (i : Int) (save : Bool) :
    ((∃ e, (remove_doc st i save).2 = .error e) ↔ dbGet st.doc_db i = none) ∧
    (dbGet st.doc_db i = none →
      remove_doc st i save = (st, .error "Document not found.")) ∧
    (∀ r, dbGet st.doc_db i = some r →
      (remove_doc st i save).2 = .ok () ∧
      dbGet (remove_doc st i save).1.doc_db i = none ∧
      reconstruct (remove_doc st i save).1.index i = none ∧
      (∀ j, j ≠ i → dbGet (remove_doc st i save).1.doc_db j = dbGet st.doc_db j) ∧
      (remove_doc st i save).1.index = remove_ids st.index [i] ∧
      (remove_doc st i save).1.disk_index =
        (if save then remove_ids st.index [i] else st.disk_index)) := by
  by_cases hc : dbGet st.doc_db i = none
  · have hcontains : dbContains st.doc_db i = false := by
      rw [dbContains_eq_dbGet_isSome, hc]
      rfl
    have hres : remove_doc st i save = (st, .error "Document not found.") := by
      rw [remove_doc, hcontains]
      simp
    refine ⟨⟨fun _ => hc, fun _ => ⟨_, by rw [hres]⟩⟩, fun _ => hres, ?_⟩
    intro r hr
    rw [hc] at hr
    exact absurd hr (by simp)
  · have hsome : (dbGet st.doc_db i).isSome = true := by
      rcases h : dbGet st.doc_db i with _ | r
      · exact absurd h hc
      · rfl
    have hcontains : dbContains st.doc_db i = true := by
      rw [dbContains_eq_dbGet_isSome, hsome]
    have hres : remove_doc st i save =
        (if save then
          saveDB { st with index := remove_ids st.index [i],
                           doc_db := dbDel st.doc_db i }
         else { st with index := remove_ids st.index [i],
                        doc_db := dbDel st.doc_db i }, .ok ()) := by
      rw [remove_doc, hcontains]
      simp
    have hfst : (remove_doc st i save).1.doc_db = dbDel st.doc_db i := by
      rw [hres]
      by_cases hs : save <;> simp [hs, saveDB]
    have hidx : (remove_doc st i save).1.index = remove_ids st.index [i] := by
      rw [hres]
      by_cases hs : save <;> simp [hs, saveDB]
    refine ⟨⟨?_, fun h => absurd h hc⟩, fun h => absurd h hc, ?_⟩
    · rintro ⟨e, he⟩
      rw [hres] at he
      simp at he
    · intro r hr
      refine ⟨by rw [hres], ?_, ?_, ?_, hidx, ?_⟩
      · rw [hfst]
        exact dbGet_dbDel_self
      · rw [hidx]
        exact reconstruct_remove_ids_self
      · intro j hj
        rw [hfst]
        exact dbGet_dbDel_ne hj
      · rw [hres]
        by_cases hs : save <;> simp [hs, saveDB]

/-- C8 witness: on the one-document fixture, removing the present id 7
succeeds and empties both stores, and removing the absent id 9 fails with
the stores untouched. -/
theorem remove_doc_spec_witness :
    (remove_doc exState1 9 true = (exState1, .error "Document not found.")) ∧
    ((remove_doc exState1 7 true).2 = .ok () ∧
      dbGet (remove_doc exState1 7 true).1.doc_db 7 = none ∧
      reconstruct (remove_doc exState1 7 true).1.index 7 = none) := by
  constructor
  · exact (remove_doc_spec exState1 9 true).2.1 (by decide)
  · have h := (remove_doc_spec exState1 7 true).2.2
      ⟨.str "old", [3, 0, 0, 0, 0, 0, 0, 0]⟩ (by decide)
    exact ⟨h.1, h.2.1, h.2.2.1⟩

/-- C9 counterexample: reopening a folder whose stored config names model
"A" with constructor argument model "B" neither errors nor re-creates the
config: the stored config is silently adopted (the constructor's model is
ignored), refuting the claim that a mismatched reopen is "an error or
auto-creation". -/
theorem dbInit_mismatch_counterexample :
    dbInit (some [("config.json", .configFile "1.0" "A")]) "B" =
      (some [("config.json", .configFile "1.0" "A")],
       .ok (⟨"1.0", "A"⟩, [])) ∧
    ("A" : String) ≠ "B" := by
  constructor
  · rfl
  · decide

/-- C9 (amended): opening a non-empty folder with no `config.json` fails
without touching the folder; opening an absent or empty folder creates
`config.json` once with the constructor's model; but reopening a folder
with an existing `config.json` silently loads the stored config and
ignores the constructor's model argument — no mismatch check is
performed. -/
theorem dbInit_spec (fs : List (String × FileContent)) (model v m0 : String) :
    (fs ≠ [] → fs.lookup "config.json" = none →
      dbInit (some fs) model =
        (some fs, .error "Folder contains files, but no config.json.")) ∧
    (dbInit none model =
      (some [("config.json", .configFile "1.0" model)],
       .ok (⟨"1.0", model⟩, []))) ∧
    (dbInit (some []) model =
      (some [("config.json", .configFile "1.0" model)],
       .ok (⟨"1.0", model⟩, []))) ∧
    (fs.lookup "config.json" = some (.configFile v m0) →
      fs.lookup "index.bin" = none →
      dbInit (some fs) model = (some fs, .ok (⟨v, m0⟩, []))) := by
  refine ⟨?_, ?_, ?_, ?_⟩
  · intro hne hcfg
    rw [dbInit]
    simp [hcfg, hne]
  · rfl
  · rfl
  · intro hcfg hidx
    rw [dbInit]
    simp [hcfg, hidx]

/-- C9 witness: the guard fires on a folder holding an unrelated file, and
creation writes the constructor's model into `config.json`. -/
theorem dbInit_spec_witness :
    (dbInit (some [("stray.txt", .otherFile)]) "m" =
      (some [("stray.txt", .otherFile)],
       .error "Folder contains files, but no config.json.")) ∧
    (dbInit none "m" =
      (some [("config.json", .configFile "1.0" "m")],
       .ok (⟨"1.0", "m"⟩, []))) ∧
    (dbInit (some [("config.json", .configFile "1.0" "m")]) "other" =
      (some [("config.json", .configFile "1.0" "m")], .ok (⟨"1.0", "m"⟩, []))) := by
  refine ⟨?_, ?_, ?_⟩
  · exact (dbInit_spec [("stray.txt", .otherFile)] "m" "1.0" "m").1
      (by decide) (by decide)
  · exact (dbInit_spec [] "m" "1.0" "m").2.1
  · exact (dbInit_spec [("config.json", .configFile "1.0" "m")] "other" "1.0" "m").2.2.2
      (by decide) (by decide)

/-- C6: every validation failure of `add_documents` — mismatched id/doc
counts, an extractor returning a non-string, or a non-int doc_id — makes
the call raise with both stores exactly as they were: no deduplication
removal and no batch insertion has happened. -/
theorem add_documents_validation_atomic (co : Embedder) (st : DBState)
    (doc_ids docs : List PyVal) (f : PyVal → PyVal) (bs : Nat) (save : Bool)
    (h : doc_ids.length ≠ docs.length ∨
         (∃ e, extractTexts f docs = .error e) ∨
         (∃ e, checkIds st.doc_db doc_ids = .error e)) :
    (add_documents co st doc_ids docs f bs save).1 = st ∧
    ∃ e, (add_documents co st doc_ids docs f bs save).2 = .error e := by
  by_cases hlen : doc_ids.length = docs.length
  · rcases hE : extractTexts f docs with e | texts
    · rw [add_documents, if_neg (by simpa using hlen), hE]
      exact ⟨rfl, e, rfl⟩
    · rcases hC : checkIds st.doc_db doc_ids with e | p
      · rw [add_documents, if_neg (by simpa using hlen), hE, hC]
        exact ⟨rfl, e, rfl⟩
      · rcases h with h | ⟨e, he⟩ | ⟨e, he⟩
        · exact absurd hlen h
        · rw [hE] at he
          exact absurd he (by simp)
        · rw [hC] at he
          exact absurd he (by simp)
  · rw [add_documents, if_pos (by simpa using hlen)]
    exact ⟨rfl, _, rfl⟩

/-- C6 witness: a call with one id and zero docs raises with the empty
database unchanged. -/
theorem add_documents_validation_atomic_witness :
    (add_documents exEmbedder exState0 [.int 1] [] (fun x => x) 960 true).1
      = exState0 ∧
    ∃ e, (add_documents exEmbedder exState0 [.int 1] [] (fun x => x) 960 true).2
      = .error e :=
  add_documents_validation_atomic exEmbedder exState0 [.int 1] []
    (fun x => x) 960 true (Or.inl (by decide))

/-- C7 counterexample: `add_documents` accepts the negative doc_id `-1`
without any validation error — the batch is ingested and stored under key
`-1`, refuting the claim that non-non-negative ids are rejected. -/
theorem add_documents_negative_id_counterexample :
    (add_documents exEmbedder exState0 [.int (-1)] [.str "a"]
        (fun x => x) 960 false).2 = .ok () ∧
    dbGet (add_documents exEmbedder exState0 [.int (-1)] [.str "a"]
        (fun x => x) 960 false).1.doc_db (-1) =
      some ⟨.str "a", [4, 0, 0, 0, 0, 0, 0, 0]⟩ := by
  constructor
  · rfl
  · rfl

theorem checkIds_error_of_bad {db : List (Int × DocRecord)} :
    ∀ {ids : List PyVal}, (∃ v ∈ ids, v.isInt = false) →
      checkIds db ids = .error "doc_id is not an int." := by
  intro ids
  induction ids with
  | nil => rintro ⟨v, hv, _⟩; simp at hv
  | cons v vs ih =>
    rintro ⟨w, hw, hbad⟩
    cases v with
    | int i =>
      rcases List.mem_cons.mp hw with rfl | hw'
      · simp [PyVal.isInt] at hbad
      · rw [checkIds, ih ⟨w, hw', hbad⟩]
        rfl
    | str s => rfl
    | obj t => rfl

theorem checkIds_ok_of_all_int {db : List (Int × DocRecord)} :
    ∀ {ids : List PyVal}, (∀ v ∈ ids, v.isInt = true) →
      ∃ p, checkIds db ids = .ok p := by
  intro ids
  induction ids with
  | nil => intro _; exact ⟨([], []), rfl⟩
  | cons v vs ih =>
    intro h
    match v with
    | .int i =>
      obtain ⟨p, hp⟩ := ih (fun w hw => h w (List.mem_cons_of_mem _ hw))
      exact ⟨(i :: p.1, if dbContains db i then i :: p.2 else p.2),
        by rw [checkIds, hp]; rfl⟩
    | .str s => exact absurd (h (.str s) (List.mem_cons_self _ _)) (by simp [PyVal.isInt])
    | .obj t => exact absurd (h (.obj t) (List.mem_cons_self _ _)) (by simp [PyVal.isInt])

/-- C7 (amended): given the earlier validations pass (matching lengths,
string-returning extractor), `add_documents` raises a validation error
exactly when some doc_id is not an `int` — a non-negative check is never
performed, so negative integer ids pass validation (see the
counterexample, which ingests doc_id `-1`). -/
theorem add_documents_id_validation (co : Embedder) (st : DBState)
    (doc_ids docs : List PyVal) (f : PyVal → PyVal) (bs : Nat) (save : Bool)
    (ts : List String)
    (hlen : doc_ids.length = docs.length)
    (hts : extractTexts f docs = .ok ts) :
    ((∃ v ∈ doc_ids, v.isInt = false) →
      add_documents co st doc_ids docs f bs save =
        (st, .error "doc_id is not an int.")) ∧
    ((∀ v ∈ doc_ids, v.isInt = true) →
      ∃ p, checkIds st.doc_db doc_ids = .ok p) := by
  constructor
  · intro hbad
    rw [add_documents, if_neg (by simpa using hlen), hts,
      checkIds_error_of_bad hbad]
  · exact checkIds_ok_of_all_int

/-- C7 amended-theorem witness: a non-int doc_id (a string) is rejected
with the state unchanged, while a list of int ids passes the id check. -/
theorem add_documents_id_validation_witness :
    (add_documents exEmbedder exState0 [.str "x"] [.str "a"]
        (fun x => x) 960 true = (exState0, .error "doc_id is not an int.")) ∧
    ∃ p, checkIds exState0.doc_db [.int (-1), .int 5] = .ok p := by
  constructor
  · exact (add_documents_id_validation exEmbedder exState0 [.str "x"] [.str "a"]
      (fun x => x) 960 true ["a"] (by decide) (by rfl)).1
      ⟨.str "x", by simp, by simp [PyVal.isInt]⟩
  · exact (add_documents_id_validation exEmbedder exState0 [.int (-1), .int 5]
      [.str "a", .str "b"] (fun x => x) 960 true ["a", "b"] (by decide)
      (by rfl)).2 (by decide)

/-- C3: the lockstep invariant — if the id set of the binary index equals
the key set of the document store (with no duplicate store keys), then any
completed `add_documents` call and any completed `remove_doc` call
preserves that equality. -/
theorem add_remove_preserve_lockstep (co : Embedder) (st : DBState)
    (doc_ids docs : List PyVal) (f : PyVal → PyVal) (bs : Nat) (save : Bool)
    (i : Int) (rsave : Bool)
    (h : Lockstep st) :
    ((add_documents co st doc_ids docs f bs save).2 = .ok () →
      Lockstep (add_documents co st doc_ids docs f bs save).1) ∧
    ((remove_doc st i rsave).2 = .ok () → Lockstep (remove_doc st i rsave).1) := by
  refine ⟨fun _ => ?_, fun _ => lockstep_remove_doc h⟩
  rw [add_documents]
  split
  · exact h
  · split
    · exact h
    · split
      · exact h
      · next ids existing heqC =>
        split
        · next st1 e heqR =>
          have := @lockstep_runRemovals existing st h
          rwa [heqR] at this
        · next st1 u heqR =>
          have h1 : Lockstep st1 := by
            have := @lockstep_runRemovals existing st h
            rwa [heqR] at this
          have h2 := @lockstep_runBatches co
            (chunks bs (ids.zip (docs.zip ‹List String›))) st1 h1
          by_cases hs : save
          · simpa [hs, saveDB] using h2
          · simpa [hs] using h2

/-- C3 witness: a concrete completed add of two fresh documents and a
completed removal, both from a lockstep state. -/
theorem add_remove_preserve_lockstep_witness :
    ((add_documents exEmbedder exState1 [.int 1, .int 2] [.str "a", .str "b"]
        (fun x => x) 960 true).2 = .ok () →
      Lockstep (add_documents exEmbedder exState1 [.int 1, .int 2]
        [.str "a", .str "b"] (fun x => x) 960 true).1) ∧
    ((remove_doc exState1 7 false).2 = .ok () →
      Lockstep (remove_doc exState1 7 false).1) :=
  add_remove_preserve_lockstep exEmbedder exState1 [.int 1, .int 2]
    [.str "a", .str "b"] (fun x => x) 960 true 7 false (by decide)

theorem chunks_singleton {α : Type} (bs : Nat) (x : α) : chunks bs [x] = [[x]] := by
  simp [chunks, chunksGo]

theorem remove_ids_no_id {idx : List (Int × List Nat)} {i : Int} :
    ∀ p ∈ remove_ids idx [i], p.1 ≠ i := by
  intro p hp
  have := (List.mem_filter.mp hp).2
  simpa using this

theorem length_remove_ids_singleton {idx : List (Int × List Nat)} {i : Int}
    (hnd : (idsOf idx).Nodup) (hmem : i ∈ idsOf idx) :
    (remove_ids idx [i]).length + 1 = idx.length := by
  induction idx with
  | nil => simp [idsOf] at hmem
  | cons p l ih =>
    simp only [idsOf, List.map_cons, List.nodup_cons, List.mem_cons] at hnd hmem
    by_cases h : p.1 = i
    · have hni : i ∉ l.map (fun q => q.1) := h ▸ hnd.1
      have hall : ∀ q ∈ l, (!([i].contains q.1)) = true := by
        intro q hq
        have hq1 : q.1 ≠ i := fun he => hni (he ▸ List.mem_map.mpr ⟨q, hq, rfl⟩)
        simpa using hq1
      have hkeep : remove_ids l [i] = l := List.filter_eq_self.mpr hall
      have hdrop : remove_ids (p :: l) [i] = remove_ids l [i] := by
        simp [remove_ids, List.filter_cons, h]
      rw [hdrop, hkeep]
      simp
    · have hmem' : i ∈ idsOf l := by
        rcases hmem with he | hm
        · exact absurd he.symm h
        · exact hm
      have hkeep : remove_ids (p :: l) [i] = p :: remove_ids l [i] := by
        simp [remove_ids, List.filter_cons, h]
      rw [hkeep]
      have := ih hnd.2 hmem'
      simp only [List.length_cons]
      omega

theorem filter_id_append_singleton {idx : List (Int × List Nat)} {i : Int}
    {v : List Nat} :
    (remove_ids idx [i] ++ [(i, v)]).filter (fun p => p.1 == i) = [(i, v)] := by
  rw [List.filter_append]
  have h1 : (remove_ids idx [i]).filter (fun p => p.1 == i) = [] := by
    rw [List.filter_eq_nil_iff]
    intro p hp
    simpa using remove_ids_no_id p hp
  rw [h1]
  simp

/-- C5: adding a doc_id already present in both stores first removes it
from the binary index and the document store and reinserts the new data:
the call succeeds, the total vector count is unchanged, the stored payload
and int8 embedding are the new ones, the reconstructable binary embedding
is the new one, and the old binary embedding is no longer reachable (the
index holds exactly one entry for the id, the fresh one). -/
theorem add_documents_replace (co : Embedder) (st : DBState) (i : Int)
    (doc : PyVal) (f : PyVal → PyVal) (s : String) (bs : Nat) (save : Bool)
    (hL : Lockstep st) (hnd : (idsOf st.index).Nodup)
    (hmem : dbContains st.doc_db i = true)
    (hf : f doc = .str s) :
    (add_documents co st [.int i] [doc] f bs save).2 = .ok () ∧
    ntotal (add_documents co st [.int i] [doc] f bs save).1.index
      = ntotal st.index ∧
    dbGet (add_documents co st [.int i] [doc] f bs save).1.doc_db i
      = some ⟨doc, (co.embedDoc st.model s).2⟩ ∧
    reconstruct (add_documents co st [.int i] [doc] f bs save).1.index i
      = some (co.embedDoc st.model s).1 ∧
    (add_documents co st [.int i] [doc] f bs save).1.index.filter
        (fun p => p.1 == i) = [(i, (co.embedDoc st.model s).1)] := by
  have hext : extractTexts f [doc] = .ok [s] := by
    rw [extractTexts, hf]
    rfl
  have hchk : checkIds st.doc_db [.int i] = .ok ([i], [i]) := by
    simp [checkIds, hmem, Except.map]
  have hrd : remove_doc st i false =
      ({ st with index := remove_ids st.index [i],
                 doc_db := dbDel st.doc_db i }, .ok ()) := by
    rw [remove_doc]
    simp [hmem]
  have hrem : runRemovals st [i] =
      ({ st with index := remove_ids st.index [i],
                 doc_db := dbDel st.doc_db i }, .ok ()) := by
    simp only [runRemovals, hrd]
  have hres : add_documents co st [.int i] [doc] f bs save =
      (let st2 := { st with
          index := remove_ids st.index [i] ++ [(i, (co.embedDoc st.model s).1)],
          doc_db := dbPut (dbDel st.doc_db i) i
            ⟨doc, (co.embedDoc st.model s).2⟩ };
        (if save then saveDB st2 else st2, .ok ())) := by
    rw [add_documents, if_neg (by simp)]
    simp only [hext, hchk, hrem, List.zip_cons_cons, List.zip_nil_left,
      chunks_singleton]
    rfl
  have hidx : (add_documents co st [.int i] [doc] f bs save).1.index =
      remove_ids st.index [i] ++ [(i, (co.embedDoc st.model s).1)] := by
    rw [hres]
    by_cases hs : save <;> simp [hs, saveDB]
  have hdb : (add_documents co st [.int i] [doc] f bs save).1.doc_db =
      dbPut (dbDel st.doc_db i) i ⟨doc, (co.embedDoc st.model s).2⟩ := by
    rw [hres]
    by_cases hs : save <;> simp [hs, saveDB]
  have hmemIdx : i ∈ idsOf st.index := by
    have hk : i ∈ keysOf st.doc_db := dbContains_iff.mp hmem
    have hiff := Finset.ext_iff.mp hL.1 i
    simp only [List.mem_toFinset] at hiff
    exact hiff.mpr hk
  refine ⟨by rw [hres], ?_, ?_, ?_, ?_⟩
  · rw [hidx]
    simp only [ntotal, List.length_append, List.length_cons, List.length_nil]
    have := length_remove_ids_singleton hnd hmemIdx
    omega
  · rw [hdb]
    exact dbGet_dbPut_self
  · rw [hidx]
    exact reconstruct_append_singleton
  · rw [hidx]
    exact filter_id_append_singleton

/-- C5 witness: replacing doc 7 of the one-document fixture keeps the
count at one, stores the new payload/embeddings, and leaves only the new
binary vector reachable. -/
theorem add_documents_replace_witness :
    (add_documents exEmbedder exState1 [.int 7] [.str "new"]
        (fun x => x) 960 true).2 = .ok () ∧
    ntotal (add_documents exEmbedder exState1 [.int 7] [.str "new"]
        (fun x => x) 960 true).1.index = ntotal exState1.index ∧
    dbGet (add_documents exEmbedder exState1 [.int 7] [.str "new"]
        (fun x => x) 960 true).1.doc_db 7
      = some ⟨.str "new", (exEmbedder.embedDoc exState1.model "new").2⟩ ∧
    reconstruct (add_documents exEmbedder exState1 [.int 7] [.str "new"]
        (fun x => x) 960 true).1.index 7
      = some (exEmbedder.embedDoc exState1.model "new").1 ∧
    (add_documents exEmbedder exState1 [.int 7] [.str "new"]
        (fun x => x) 960 true).1.index.filter (fun p => p.1 == 7)
      = [(7, (exEmbedder.embedDoc exState1.model "new").1)] :=
  add_documents_replace exEmbedder exState1 7 (.str "new") (fun x => x)
    "new" 960 true (by decide) (by decide) (by decide) rfl

theorem phase1_length {idx : List (Int × List Nat)} (q_ub : List Nat) {bk : Nat}
    (h : bk ≤ ntotal idx) : (phase1 idx q_ub bk).length = bk := by
  simp only [phase1, index_search, List.length_take, List.length_insertionSort,
    List.length_map]
  exact min_eq_left h

theorem phase1_mem {idx : List (Int × List Nat)} {q_ub : List Nat} {bk : Nat} :
    ∀ h1 ∈ phase1 idx q_ub bk, ∃ p ∈ idx, h1 = ⟨p.1, hamming q_ub p.2⟩ := by
  intro h1 hh
  have h2 : h1 ∈ List.insertionSort (ascBy Hit1.score_hamming)
      (idx.map (fun p => ⟨p.1, hamming q_ub p.2⟩)) :=
    List.take_subset _ _ hh
  have h3 := (List.mem_insertionSort _).mp h2
  obtain ⟨p, hp, he⟩ := List.mem_map.mp h3
  exact ⟨p, hp, he.symm⟩

theorem phase1_sorted {idx : List (Int × List Nat)} (q_ub : List Nat) (bk : Nat) :
    (phase1 idx q_ub bk).Pairwise (fun a b => a.score_hamming ≤ b.score_hamming) := by
  have hs := List.sorted_insertionSort (ascBy Hit1.score_hamming)
    (idx.map (fun p => ⟨p.1, hamming q_ub p.2⟩))
  have ht : (phase1 idx q_ub bk).Sublist (List.insertionSort
      (ascBy Hit1.score_hamming) (idx.map (fun p => ⟨p.1, hamming q_ub p.2⟩))) :=
    List.take_sublist _ _
  exact (hs.sublist ht).imp (fun hab => hab)

theorem phase1_ids_mem {idx : List (Int × List Nat)} {q_ub : List Nat} {bk : Nat} :
    ∀ h1 ∈ phase1 idx q_ub bk, h1.doc_id ∈ idsOf idx := by
  intro h1 hh
  obtain ⟨p, hp, rfl⟩ := phase1_mem h1 hh
  exact List.mem_map.mpr ⟨p, hp, rfl⟩

theorem phase2_isSome {idx : List (Int × List Nat)} (q_float : List ℚ)
    {hits : List Hit1} (ir : Nat)
    (h : ∀ h1 ∈ hits, h1.doc_id ∈ idsOf idx) :
    ∃ l, phase2 idx q_float hits ir = some l := by
  obtain ⟨m, hm⟩ := @mapOpt_isSome Hit1 Hit2
    (fun h1 => (reconstruct idx h1.doc_id).map (fun v =>
      Hit2.mk h1.doc_id h1.score_hamming (dotQZ q_float (pmOne (unpackbits v)))))
    hits
    (fun x hx => by
      rw [Option.isSome_map']
      exact reconstruct_isSome_iff.mpr (h x hx))
  exact ⟨_, by rw [phase2, hm]; rfl⟩

theorem phase2_spec {idx : List (Int × List Nat)} {q_float : List ℚ}
    {hits : List Hit1} {ir : Nat} {l : List Hit2}
    (h : phase2 idx q_float hits ir = some l) :
    l.length = min ir hits.length ∧
    l.Pairwise (fun a b => b.score_binary ≤ a.score_binary) ∧
    (∀ h2 ∈ l, ∃ h1 ∈ hits, ∃ v, reconstruct idx h1.doc_id = some v ∧
      h2 = ⟨h1.doc_id, h1.score_hamming, dotQZ q_float (pmOne (unpackbits v))⟩) := by
  rw [phase2, Option.map_eq_some'] at h
  obtain ⟨m, hm, rfl⟩ := h
  have hlen : m.length = hits.length := mapOpt_length hm
  refine ⟨?_, ?_, ?_⟩
  · simp [List.length_take, List.length_insertionSort, hlen]
  · have hs := List.sorted_insertionSort (descBy Hit2.score_binary) m
    have ht := List.take_sublist ir
      (List.insertionSort (descBy Hit2.score_binary) m)
    exact ((hs.sublist ht).imp (fun hab => hab))
  · intro h2 hh
    have h3 := (List.mem_insertionSort _).mp (List.take_subset _ _ hh)
    obtain ⟨h1, hh1, hf⟩ := mapOpt_mem hm h2 h3
    rw [Option.map_eq_some'] at hf
    obtain ⟨v, hv, rfl⟩ := hf
    exact ⟨h1, hh1, v, hv, rfl⟩

theorem fetchRecords_isSome (db : List (Int × DocRecord)) {hits : List Hit2}
    (h : ∀ h2 ∈ hits, h2.doc_id ∈ keysOf db) :
    ∃ pairs, fetchRecords db hits = some pairs := by
  exact mapOpt_isSome _ (fun x hx => by
    rw [Option.isSome_map']
    exact dbGet_isSome_iff.mpr (h x hx))

theorem fetchRecords_mem {db : List (Int × DocRecord)} {hits : List Hit2}
    {pairs : List (Hit3 × List Int)}
    (h : fetchRecords db hits = some pairs) :
    ∀ pr ∈ pairs, ∃ h2 ∈ hits, ∃ rec, dbGet db h2.doc_id = some rec ∧
      pr = (⟨h2.doc_id, h2.score_hamming, h2.score_binary, rec.doc⟩,
        rec.emb_int8) := by
  intro pr hpr
  obtain ⟨h2, hh2, hf⟩ := mapOpt_mem h pr hpr
  rw [Option.map_eq_some'] at hf
  obtain ⟨rec, hrec, rfl⟩ := hf
  exact ⟨h2, hh2, rec, hrec, rfl⟩

theorem _search_emb_decomp {st : DBState} {qf : List ℚ} {qub : List Nat}
    {k bo io : Nat} {out : SearchOutcome}
    (h : _search_emb st qf qub k bo io = some out) :
    ∃ l2, phase2 st.index qf
        (phase1 st.index qub (min (k * bo) (ntotal st.index))) (k * io)
        = some l2 ∧
      phase3 st.doc_db qf l2 k = some out := by
  simp only [_search_emb, Option.bind_eq_some] at h
  exact h

theorem phase3_cases {db : List (Int × DocRecord)} {qf : List ℚ}
    {hits : List Hit2} {k : Nat} {out : SearchOutcome}
    (h : phase3 db qf hits k = some out) :
    ∃ p0 rest, fetchRecords db hits = some (p0 :: rest) ∧
      (((cosOf qf p0.2).key < 1 / 4 ∧ out = .noMatch) ∨
       (¬(cosOf qf p0.2).key < 1 / 4 ∧
        out = .results
          ((List.insertionSort (descBy (fun h4 => Cos.key h4.score_cossim))
            ((p0 :: rest).map (fun p => Hit4.mk p.1.doc_id p.1.score_hamming
              p.1.score_binary p.1.doc (cosOf qf p.2)))).take k)
          ((p0 :: rest).map (fun p => cosOf qf p.2)))) := by
  simp only [phase3, Option.bind_eq_some] at h
  obtain ⟨pairs, hp, hm⟩ := h
  cases pairs with
  | nil => simp at hm
  | cons p0 rest =>
    dsimp only [] at hm
    by_cases hkey : (cosOf qf p0.2).key < 1 / 4
    · rw [if_pos hkey] at hm
      exact ⟨p0, rest, hp, Or.inl ⟨hkey, (Option.some.inj hm).symm⟩⟩
    · rw [if_neg hkey] at hm
      exact ⟨p0, rest, hp, Or.inr ⟨hkey, (Option.some.inj hm).symm⟩⟩

/-- C4: Phase I yields exactly `binary_k = min(k * binary_oversample,
total_count)` candidates ranked ascending by Hamming distance; Phase II
always succeeds on them, scores each candidate as the dot product of the
float query with the reconstructed binary embedding unpacked under
`bit ↦ 2·bit - 1` (0 → -1, 1 → +1), re-ranks descending by that score and
truncates to at most `k * int8_oversample` survivors, each of which is a
Phase I candidate. -/
theorem search_phase1_phase2_spec (st : DBState) (qf : List ℚ)
    (qub : List Nat) (k bo io : Nat) :
    (phase1 st.index qub (min (k * bo) (ntotal st.index))).length
        = min (k * bo) (ntotal st.index) ∧
    (phase1 st.index qub (min (k * bo) (ntotal st.index))).Pairwise
        (fun a b => a.score_hamming ≤ b.score_hamming) ∧
    ∃ l, phase2 st.index qf
        (phase1 st.index qub (min (k * bo) (ntotal st.index))) (k * io)
        = some l ∧
      l.length = min (k * io) (min (k * bo) (ntotal st.index)) ∧
      l.length ≤ k * io ∧
      l.Pairwise (fun a b => b.score_binary ≤ a.score_binary) ∧
      (∀ h2 ∈ l, ∃ v, reconstruct st.index h2.doc_id = some v ∧
        h2.score_binary = dotQZ qf (pmOne (unpackbits v))) ∧
      (∀ h2 ∈ l, ∃ h1 ∈ phase1 st.index qub (min (k * bo) (ntotal st.index)),
        h1.doc_id = h2.doc_id ∧ h1.score_hamming = h2.score_hamming) := by
  have hbk : min (k * bo) (ntotal st.index) ≤ ntotal st.index :=
    min_le_right _ _
  have hlen := @phase1_length st.index qub (min (k * bo) (ntotal st.index)) hbk
  obtain ⟨l, hl⟩ := @phase2_isSome st.index qf
    (phase1 st.index qub (min (k * bo) (ntotal st.index))) (k * io)
    (@phase1_ids_mem st.index qub (min (k * bo) (ntotal st.index)))
  obtain ⟨hlen2, hsort, hmem⟩ := phase2_spec hl
  refine ⟨hlen, phase1_sorted qub _, l, hl, ?_, ?_, hsort, ?_, ?_⟩
  · rw [hlen2, hlen]
  · rw [hlen2]
    exact min_le_left _ _
  · intro h2 hh
    obtain ⟨h1, _, v, hv, rfl⟩ := hmem h2 hh
    exact ⟨v, hv, rfl⟩
  · intro h2 hh
    obtain ⟨h1, hh1, v, hv, rfl⟩ := hmem h2 hh
    exact ⟨h1, hh1, rfl, rfl⟩

/-- C4 witness: the concrete two-document fixture instantiation. -/
theorem search_phase1_phase2_spec_witness :
    (phase1 exState2.index [255] (min (1 * 10) (ntotal exState2.index))).length
        = min (1 * 10) (ntotal exState2.index) ∧
    ∃ l, phase2 exState2.index exQueryLow
        (phase1 exState2.index [255] (min (1 * 10) (ntotal exState2.index)))
        (1 * 3) = some l ∧
      l.length ≤ 1 * 3 ∧
      l.Pairwise (fun a b => b.score_binary ≤ a.score_binary) := by
  have h := search_phase1_phase2_spec exState2 exQueryLow [255] 1 10 3
  obtain ⟨h1, _, l, hl, _, hle, hsort, _, _⟩ := h
  exact ⟨h1, l, hl, hle, hsort⟩

/-- C10: on a confident match `_search_emb` returns the pair
`(hits, scores3)` in which `scores3` has one entry per Phase II survivor —
up to `k * int8_oversample` entries, not truncated to `k` — and remains in
Phase II (binary-score) order: its `i`-th entry is the cosine score of the
`i`-th Phase II survivor's stored record.  Only `hits` is truncated to `k`
and re-sorted by cosine score. -/
theorem search_scores3_order (st : DBState) (qf : List ℚ) (qub : List Nat)
    (k bo io : Nat) (hits : List Hit4) (cs : List Cos)
    (h : _search_emb st qf qub k bo io = some (.results hits cs)) :
    hits.length ≤ k ∧
    cs.length ≤ k * io ∧
    ∃ l2, phase2 st.index qf
        (phase1 st.index qub (min (k * bo) (ntotal st.index))) (k * io)
        = some l2 ∧
      cs.length = l2.length ∧
      ∀ (i : Nat) (hi : i < l2.length) (hi2 : i < cs.length),
        ∃ rec, dbGet st.doc_db (l2.get ⟨i, hi⟩).doc_id = some rec ∧
          cs.get ⟨i, hi2⟩ = cosOf qf rec.emb_int8 := by
  obtain ⟨l2, hl2, hp3⟩ := _search_emb_decomp h
  obtain ⟨p0, rest, hfetch, hcase⟩ := phase3_cases hp3
  rcases hcase with ⟨_, hout⟩ | ⟨_, hout⟩
  · exact absurd hout (by simp)
  · obtain ⟨hhits, hcs⟩ : hits = (List.insertionSort
        (descBy (fun h4 => Cos.key h4.score_cossim))
        ((p0 :: rest).map (fun p => Hit4.mk p.1.doc_id p.1.score_hamming
          p.1.score_binary p.1.doc (cosOf qf p.2)))).take k ∧
        cs = (p0 :: rest).map (fun p => cosOf qf p.2) := by
      have := hout
      rw [SearchOutcome.results.injEq] at this
      exact this
    subst hhits
    subst hcs
    have hplen : (p0 :: rest).length = l2.length := mapOpt_length hfetch
    have hcslen : (List.map (fun p => cosOf qf p.2) (p0 :: rest)).length
        = l2.length := by
      rw [List.length_map, hplen]
    refine ⟨List.length_take_le _ _, ?_, l2, hl2, hcslen, ?_⟩
    · rw [hcslen, (phase2_spec hl2).1]
      exact min_le_left _ _
    · intro i hi hi2
      have hip : i < (p0 :: rest).length := by rw [hplen]; exact hi
      have hget := mapOpt_get hfetch i hi hip
      rw [Option.map_eq_some'] at hget
      obtain ⟨rec, hrec, hpr⟩ := hget
      refine ⟨rec, hrec, ?_⟩
      simp only [List.get_eq_getElem] at hpr ⊢
      rw [List.getElem_map, ← hpr]

/-- C10 witness: a confident-match run on the two-document fixture whose
score vector keeps both Phase II survivors (in binary-score order, doc 1
before doc 2) while the hit list is truncated to `k = 1`. -/
theorem search_scores3_order_witness :
    ([⟨9/10, 1⟩, ⟨2/5, 1⟩] : List Cos).length ≤ 1 * 3 ∧
    ([⟨1, 0, 13/10, .str "A", ⟨9/10, 1⟩⟩] : List Hit4).length ≤ 1 ∧
    ∃ l2, phase2 exState2.index exQueryHigh
        (phase1 exState2.index [255] (min (1 * 10) (ntotal exState2.index)))
        (1 * 3) = some l2 ∧
      ([⟨9/10, 1⟩, ⟨2/5, 1⟩] : List Cos).length = l2.length := by
  have h := search_scores3_order exState2 exQueryHigh [255] 1 10 3
    [⟨1, 0, 13/10, .str "A", ⟨9/10, 1⟩⟩] [⟨9/10, 1⟩, ⟨2/5, 1⟩] (by
      norm_num [_search_emb, phase1, index_search, hamming, unpackByte,
        unpackbits, phase2, phase3, fetchRecords, reconstruct, mapOpt, pmOne,
        dotQZ, cosOf, normSq, Cos.key, ntotal, dbGet, descBy, ascBy, exState2,
        exQueryHigh, List.insertionSort, List.orderedInsert, List.range_succ])
  obtain ⟨h1, h2, l2, hl2, hlen, _⟩ := h
  exact ⟨h2, h1, l2, hl2, hlen⟩

/-- C1 counterexample: on the two-document fixture with the low query the
run returns the no-confident-match sentinel even though the second Phase
III survivor's cosine similarity is 0.9 ≥ 0.5 — the code tests only
`scores3[0]`, the cosine of the top Phase II candidate, not the maximum
cosine among the survivors, so the claimed iff fails. -/
theorem search_threshold_counterexample :
    _search_emb exState2 exQueryLow [255] 1 10 3 = some .noMatch ∧
    searchScores exState2 exQueryLow [255] 1 10 3 = some exScoresLow ∧
    (1 : ℝ) / 2 ≤ (Cos.mk (9/10) 1).toReal ∧
    Cos.mk (9/10) 1 ∈ exScoresLow ∧
    ¬(_search_emb exState2 exQueryLow [255] 1 10 3 = some .noMatch ↔
        ∀ c ∈ exScoresLow, c.toReal < 1 / 2) := by
  have h1 : _search_emb exState2 exQueryLow [255] 1 10 3 = some .noMatch := by
    norm_num [_search_emb, phase1, index_search, hamming, unpackByte,
      unpackbits, phase2, phase3, fetchRecords, reconstruct, mapOpt, pmOne,
      dotQZ, cosOf, normSq, Cos.key, ntotal, dbGet, descBy, ascBy, exState2,
      exQueryLow, List.insertionSort, List.orderedInsert, List.range_succ]
  have h2 : searchScores exState2 exQueryLow [255] 1 10 3 = some exScoresLow := by
    norm_num [searchScores, phase1, index_search, hamming, unpackByte,
      unpackbits, phase2, fetchRecords, reconstruct, mapOpt, pmOne,
      dotQZ, cosOf, normSq, ntotal, dbGet, descBy, ascBy, exState2,
      exQueryLow, exScoresLow, List.insertionSort, List.orderedInsert,
      List.range_succ]
  have hmem : Cos.mk (9/10) 1 ∈ exScoresLow :=
    List.mem_cons_of_mem _ (List.mem_cons_self _ _)
  have hc : (1 : ℝ) / 2 ≤ (Cos.mk (9/10) 1).toReal := by
    rw [Cos.toReal]
    push_cast
    rw [Real.sqrt_one]
    norm_num
  refine ⟨h1, h2, hc, hmem, ?_⟩
  intro hiff
  exact absurd (hiff.mp h1 _ hmem) (not_lt.mpr hc)

/-- C1 (amended): a search run that completes returns the
no-confident-match sentinel iff the Phase III cosine similarity of the
*first Phase II survivor* — the candidate with the highest Phase II binary
score, i.e. `scores3[0]` — is below 0.5.  (The claim's "top (maximum)
Phase III cosine similarity" is wrong: the threshold is applied before the
cosine re-sort, so a later survivor may score ≥ 0.5 and the sentinel is
still returned.) -/
theorem search_noMatch_iff (st : DBState) (qf : List ℚ) (qub : List Nat)
    (k bo io : Nat) (out : SearchOutcome) (cs : List Cos) (c0 : Cos)
    (hrun : _search_emb st qf qub k bo io = some out)
    (hsc : searchScores st qf qub k bo io = some cs)
    (hc0 : cs.head? = some c0)
    (hpos : 0 < c0.nsq) :
    (out = .noMatch ↔ c0.toReal < 1 / 2) := by
  obtain ⟨l2, hl2, hp3⟩ := _search_emb_decomp hrun
  obtain ⟨p0, rest, hfetch, hcase⟩ := phase3_cases hp3
  simp only [searchScores, Option.bind_eq_some] at hsc
  obtain ⟨l2x, hl2x, hmap⟩ := hsc
  rw [hl2] at hl2x
  obtain rfl : l2 = l2x := Option.some.inj hl2x
  rw [hfetch, Option.map_eq_some'] at hmap
  obtain ⟨pairs, hpairs, hcs⟩ := hmap
  obtain rfl : p0 :: rest = pairs := Option.some.inj hpairs
  obtain rfl : cs = (p0 :: rest).map (fun p => cosOf qf p.2) := hcs.symm
  have hc0' : c0 = cosOf qf p0.2 := by
    simp only [List.map_cons, List.head?_cons, Option.some.injEq] at hc0
    exact hc0.symm
  subst hc0'
  rcases hcase with ⟨hkey, hout⟩ | ⟨hkey, hout⟩
  · subst hout
    simp only [true_iff]
    exact (Cos.key_lt_quarter_iff hpos).mp hkey
  · subst hout
    constructor
    · intro habs
      exact absurd habs (by simp)
    · intro hlt
      exact absurd ((Cos.key_lt_quarter_iff hpos).mpr hlt) hkey

/-- C1 amended-theorem witness: the low-query run instantiated concretely;
the sentinel is returned and the first survivor's cosine 0.4 is below
0.5. -/
theorem search_noMatch_iff_witness :
    (SearchOutcome.noMatch = SearchOutcome.noMatch ↔
      (Cos.mk (2/5) 1).toReal < 1 / 2) := by
  refine search_noMatch_iff exState2 exQueryLow [255] 1 10 3 .noMatch
    exScoresLow (Cos.mk (2/5) 1) ?_ ?_ ?_ ?_
  · norm_num [_search_emb, phase1, index_search, hamming, unpackByte,
      unpackbits, phase2, phase3, fetchRecords, reconstruct, mapOpt, pmOne,
      dotQZ, cosOf, normSq, Cos.key, ntotal, dbGet, descBy, ascBy, exState2,
      exQueryLow, List.insertionSort, List.orderedInsert, List.range_succ]
  · norm_num [searchScores, phase1, index_search, hamming, unpackByte,
      unpackbits, phase2, fetchRecords, reconstruct, mapOpt, pmOne,
      dotQZ, cosOf, normSq, ntotal, dbGet, descBy, ascBy, exState2,
      exQueryLow, exScoresLow, List.insertionSort, List.orderedInsert,
      List.range_succ]
  · rfl
  · norm_num

/-- C2: on a confident match the returned hit list has length at most `k`
and is sorted descending by cosine score, and every hit carries its
doc_id's stored payload, its Phase III cosine score (of the stored int8
embedding), its Phase II binary score (the dot product against its
reconstructed unpacked binary embedding), and its Phase I Hamming score
(the Hamming distance of the query's binary embedding to an indexed vector
with that id). -/
theorem search_results_spec (st : DBState) (qf : List ℚ) (qub : List Nat)
    (k bo io : Nat) (hits : List Hit4) (cs : List Cos)
    (hrun : _search_emb st qf qub k bo io = some (.results hits cs))
    (hpos : ∀ p ∈ st.doc_db, 0 < normSq p.2.emb_int8) :
    hits.length ≤ k ∧
    hits.Pairwise (fun a b =>
      b.score_cossim.toReal ≤ a.score_cossim.toReal) ∧
    ∀ hh ∈ hits, ∃ rec, dbGet st.doc_db hh.doc_id = some rec ∧
      hh.doc = rec.doc ∧
      hh.score_cossim = cosOf qf rec.emb_int8 ∧
      (∃ v, reconstruct st.index hh.doc_id = some v ∧
        hh.score_binary = dotQZ qf (pmOne (unpackbits v))) ∧
      (∃ p ∈ st.index, p.1 = hh.doc_id ∧ hh.score_hamming = hamming qub p.2) := by
  obtain ⟨l2, hl2, hp3⟩ := _search_emb_decomp hrun
  obtain ⟨p0, rest, hfetch, hcase⟩ := phase3_cases hp3
  rcases hcase with ⟨_, hout⟩ | ⟨_, hout⟩
  · exact absurd hout (by simp)
  obtain ⟨hhits, hcs⟩ : hits = (List.insertionSort
      (descBy (fun h4 => Cos.key h4.score_cossim))
      ((p0 :: rest).map (fun p => Hit4.mk p.1.doc_id p.1.score_hamming
        p.1.score_binary p.1.doc (cosOf qf p.2)))).take k ∧
      cs = (p0 :: rest).map (fun p => cosOf qf p.2) := by
    have := hout
    rw [SearchOutcome.results.injEq] at this
    exact this
  have hlink : ∀ hh ∈ hits, ∃ rec, dbGet st.doc_db hh.doc_id = some rec ∧
      hh.doc = rec.doc ∧
      hh.score_cossim = cosOf qf rec.emb_int8 ∧
      (∃ v, reconstruct st.index hh.doc_id = some v ∧
        hh.score_binary = dotQZ qf (pmOne (unpackbits v))) ∧
      (∃ p ∈ st.index, p.1 = hh.doc_id ∧ hh.score_hamming = hamming qub p.2) := by
    intro hh hmem
    rw [hhits] at hmem
    have h4 := (List.mem_insertionSort _).mp (List.take_subset _ _ hmem)
    obtain ⟨pr, hpr, hmk⟩ := List.mem_map.mp h4
    obtain ⟨h2, hh2, rec, hrec, hpr_eq⟩ := fetchRecords_mem hfetch pr hpr
    obtain ⟨h1, hh1, v, hv, h2eq⟩ := (phase2_spec hl2).2.2 h2 hh2
    obtain ⟨p, hp, h1eq⟩ := phase1_mem h1 hh1
    subst hmk
    subst hpr_eq
    subst h2eq
    subst h1eq
    exact ⟨rec, hrec, rfl, rfl, ⟨v, hv, rfl⟩, ⟨p, hp, rfl, rfl⟩⟩
  have hnsq : ∀ hh ∈ hits, 0 < hh.score_cossim.nsq := by
    intro hh hmem
    obtain ⟨rec, hrec, _, hcoseq, _, _⟩ := hlink hh hmem
    rw [hcoseq]
    exact hpos _ (dbGet_mem hrec)
  refine ⟨by rw [hhits]; exact List.length_take_le _ _, ?_, hlink⟩
  have hsorted : hits.Pairwise (descBy (fun h4 => Cos.key h4.score_cossim)) := by
    rw [hhits]
    exact (List.sorted_insertionSort _ _).sublist (List.take_sublist _ _)
  exact hsorted.imp_of_mem (fun ha hb hr =>
    (Cos.key_le_key_iff (hnsq _ hb) (hnsq _ ha)).mp hr)

/-- C2 witness: the confident-match run on the high query returns a single
hit, sorted, carrying doc 1's payload and all three scores. -/
theorem search_results_spec_witness :
    ([⟨1, 0, 13/10, .str "A", ⟨9/10, 1⟩⟩] : List Hit4).length ≤ 1 ∧
    ([⟨1, 0, 13/10, .str "A", ⟨9/10, 1⟩⟩] : List Hit4).Pairwise (fun a b =>
      b.score_cossim.toReal ≤ a.score_cossim.toReal) := by
  have h := search_results_spec exState2 exQueryHigh [255] 1 10 3
    [⟨1, 0, 13/10, .str "A", ⟨9/10, 1⟩⟩] [⟨9/10, 1⟩, ⟨2/5, 1⟩]
    (by
      norm_num [_search_emb, phase1, index_search, hamming, unpackByte,
        unpackbits, phase2, phase3, fetchRecords, reconstruct, mapOpt, pmOne,
        dotQZ, cosOf, normSq, Cos.key, ntotal, dbGet, descBy, ascBy, exState2,
        exQueryHigh, List.insertionSort, List.orderedInsert, List.range_succ])
    (by
      intro p hp
      norm_num [exState2] at hp
      rcases hp with hp | hp <;> rw [hp] <;> norm_num [normSq])
  exact ⟨h.1, h.2.1⟩

end RagDB
